import Mathlib

/-!
Shallow embedding of the manopla-go training-cadence generator.

The program (package `main`) keeps a static catalog of strike moves, filters
it once at startup with `applyGlobalOptions`, and then, in an infinite loop,
builds a sequence of `seqSize` moves by calling `nextMove`, alternating the
lead-side flag after every move. Randomness enters in two places: one
`rand.Float64` draw per candidate move inside the probability rule, and one
`rand.Intn` draw to pick an index into the allowed subset. We model the
float draws as a stream `Nat → ℚ` (one entry per candidate move, consumed in
catalog order) and the `Intn` draw as an arbitrary natural reduced modulo the
subset size; `Intn` on an empty subset panics, which we model as `none`.
Go `int` fields are modeled as `Int`.
-/

/-- A strike move: name, lead-side and rear-side eligibility, limb type, and
inverse skip probability (`prob = 0` always eligible, `prob = 1` never). -/
structure move where
  name : String
  front : Bool
  back : Bool
  leg : Bool
  prob : ℚ
deriving DecidableEq

/-- Global configuration parsed from CLI flags (`interval` is the
inter-sequence delay in nanoseconds; it plays no role in selection). -/
structure globalOptions where
  maxDistinct : Int
  seqSize : Int
  onlyArm : Bool
  onlyLeg : Bool
  interval : Int
deriving DecidableEq

/-- Per-selection context handed to `nextMove`. -/
structure rulesOptions where
  isFront : Bool
  previousMoves : List move
  seqSize : Int

/-- The named predicate rules of the source (`probabilityRule`, `frontRule`,
`backRule`, `mustBeLegRule`, `mustNotBeLegRule`). -/
inductive rule where
  | probabilityRule
  | frontRule
  | backRule
  | mustBeLegRule
  | mustNotBeLegRule
deriving DecidableEq

/-- Evaluate one rule on a move. Only `probabilityRule` consumes the random
draw `p`: the move passes iff `m.prob <= p`. -/
def evalRule (r : rule) (m : move) (p : ℚ) : Bool :=
  match r with
  | rule.probabilityRule => decide (m.prob ≤ p)
  | rule.frontRule => m.front
  | rule.backRule => m.back
  | rule.mustBeLegRule => m.leg
  | rule.mustNotBeLegRule => !m.leg

/-- The per-move body of the filtering loop in `applyGlobalOptions`: a move is
kept unless one of the three `continue` conditions fires. -/
def keepMove (o : globalOptions) (m : move) : Bool :=
  !(o.onlyLeg && !m.leg) &&
  !(o.onlyArm && m.leg) &&
  !((!o.onlyLeg) && m.leg && (decide (o.seqSize > 1) && decide (o.seqSize < 4)))

/-- The filtering pass of `applyGlobalOptions`, before any truncation. -/
def filterPass (moves : List move) (o : globalOptions) : List move :=
  moves.filter (keepMove o)

/-- `applyGlobalOptions`: filter the catalog, then truncate to the first
`maxDistinct` moves when `maxDistinct != 0 && len(result) > maxDistinct`.
Go slicing `result[:maxDistinct]` panics when `maxDistinct` is negative,
which we model as `none`. -/
def applyGlobalOptions (moves : List move) (o : globalOptions) : Option (List move) :=
  if o.maxDistinct ≠ 0 ∧ ((filterPass moves o).length : Int) > o.maxDistinct then
    if o.maxDistinct < 0 then none
    else some ((filterPass moves o).take o.maxDistinct.toNat)
  else some (filterPass moves o)

/-- `hasLeg` as computed inside `nextMove`: some move of the set is a leg move. -/
def hasLeg (moves : List move) : Bool :=
  moves.any (fun m => m.leg)

/-- `hasArm` as computed inside `nextMove`: some move of the set is not a leg move. -/
def hasArm (moves : List move) : Bool :=
  moves.any (fun m => !m.leg)

/-- The rule list built by `nextMove`: probability rule, then the side rule,
then (only when the set has both leg and arm moves) the limb-position rule:
`mustBeLegRule` at the last position of a sequence of length >= 4, otherwise
`mustNotBeLegRule` unless the sequence has length 1. -/
def rulesFor (possibleMoves : List move) (o : rulesOptions) : List rule :=
  [rule.probabilityRule] ++
  (if o.isFront then [rule.frontRule] else [rule.backRule]) ++
  (if hasLeg possibleMoves && hasArm possibleMoves then
    (if o.seqSize ≥ 4 ∧ (o.previousMoves.length : Int) = o.seqSize - 1 then
      [rule.mustBeLegRule]
    else if o.seqSize ≠ 1 then
      [rule.mustNotBeLegRule]
    else [])
  else [])

/-- A move passes when every rule in the list accepts it (the Go loop
short-circuits on the first failing rule, but the later rules are pure, so
conjunction is equivalent). -/
def passesAll (rs : List rule) (m : move) (p : ℚ) : Bool :=
  rs.all (fun r => evalRule r m p)

/-- Advance a draw stream by `k` positions. -/
def dropDraws {α : Type} (f : Nat → α) (k : Nat) : Nat → α :=
  fun n => f (n + k)

/-- `applyRules`: keep the moves passing every rule. Each candidate move
consumes exactly one float draw (the probability rule is always first in the
list built by `nextMove` and is the only rule that draws). -/
def applyRules (possibleMoves : List move) (rs : List rule) (p : Nat → ℚ) : List move :=
  match possibleMoves with
  | [] => []
  | m :: ms =>
    (if passesAll rs m (p 0) then [m] else []) ++ applyRules ms rs (dropDraws p 1)

/-- `nextMove`: build the rules, filter, then pick index `rand.Intn(len)` in
the allowed subset. `Intn` of 0 panics, modeled as `none`; otherwise the draw
is an arbitrary natural `r` reduced modulo the subset length. -/
def nextMove (possibleMoves : List move) (o : rulesOptions) (p : Nat → ℚ) (r : Nat) :
    Option move :=
  if h : applyRules possibleMoves (rulesFor possibleMoves o) p = [] then none
  else some ((applyRules possibleMoves (rulesFor possibleMoves o) p).get
    ⟨r % (applyRules possibleMoves (rulesFor possibleMoves o) p).length,
     Nat.mod_lt r (List.length_pos.mpr h)⟩)

/-- The printed line of one round: the side marker of the round's starting
flag followed by the move names, exactly as `main` builds `s`. -/
def roundLine (f : Bool) (ms : List move) : String :=
  ms.foldl (fun s m => s ++ " " ++ m.name) (if f then "F:" else "T:")

/-- The inner `for i := 0; i < seqSize` loop of `main`: select `fuel` more
moves, feeding back the accumulated moves and flipping the side flag after
every selection. Returns the moves, the final flag and the remaining draw
streams, or `none` if some selection panicked. -/
def genRoundAux (ws : List move) (sz : Int) :
    Nat → List move → Bool → (Nat → ℚ) → (Nat → Nat) →
    Option (List move × Bool × (Nat → ℚ) × (Nat → Nat))
  | 0, acc, f, fl, it => some (acc, f, fl, it)
  | fuel + 1, acc, f, fl, it =>
    match nextMove ws ⟨f, acc, sz⟩ fl (it 0) with
    | none => none
    | some m =>
      genRoundAux ws sz fuel (acc ++ [m]) (!f) (dropDraws fl ws.length) (dropDraws it 1)

/-- The first `k` iterations of the outer round loop of `main`: each round
records its starting side flag and its printed line. The side flag is NOT
reset between rounds; it keeps alternating across round boundaries. -/
def genRounds (ws : List move) (sz : Int) :
    Nat → Bool → (Nat → ℚ) → (Nat → Nat) → Option (List (Bool × String))
  | 0, _, _, _ => some []
  | k + 1, f, fl, it =>
    match genRoundAux ws sz sz.toNat [] f fl it with
    | none => none
    | some (ms, f2, fl2, it2) =>
      match genRounds ws sz k f2 fl2 it2 with
      | none => none
      | some rest => some ((f, roundLine f ms) :: rest)

/-- The static move catalog of the source. -/
def defaultMoves : List move :=
  [⟨"jab", true, false, false, 0⟩,
   ⟨"direto", false, true, false, 0⟩,
   ⟨"cruza", true, true, false, 3/10⟩,
   ⟨"chuta", true, true, true, 0⟩,
   ⟨"tip", true, true, true, 1/2⟩,
   ⟨"upper", true, true, false, 3/10⟩,
   ⟨"cotovelo", true, true, false, 1/2⟩,
   ⟨"joelho", true, true, true, 1/2⟩]

/-- The starting side flag of round `r`, given initial flag `f0` and `szN`
side flips per round. -/
def flagAt (f0 : Bool) (szN : Nat) : Nat → Bool
  | 0 => f0
  | r + 1 => flagAt (f0 != decide (szN % 2 = 1)) szN r

/-! ### Helper lemmas -/

/-- A move surviving `applyRules` is in the input set and passes every rule
for the draw it consumed. -/
theorem mem_applyRules {ms : List move} {rs : List rule} {p : Nat → ℚ} {m : move}
    (hm : m ∈ applyRules ms rs p) : m ∈ ms ∧ ∃ q, passesAll rs m q = true := by
  induction ms generalizing p with
  | nil => simp [applyRules] at hm
  | cons a t ih =>
    simp only [applyRules, List.mem_append] at hm
    rcases hm with h | h
    · by_cases hp : passesAll rs a (p 0) = true
      · simp [hp] at h
        subst h
        exact ⟨List.mem_cons_self _ _, p 0, hp⟩
      · simp [hp] at h
    · rcases ih h with ⟨h1, h2⟩
      exact ⟨List.mem_cons_of_mem _ h1, h2⟩

/-- A normally returned move of `nextMove` is a member of the filtered
subset `applyRules possibleMoves (rulesFor possibleMoves o) p`. -/
theorem nextMove_mem_allowed {ws : List move} {o : rulesOptions} {p : Nat → ℚ} {r : Nat}
    {m : move} (h : nextMove ws o p r = some m) :
    m ∈ applyRules ws (rulesFor ws o) p := by
  unfold nextMove at h
  split at h
  · exact absurd h (by simp)
  · rw [Option.some_inj] at h
    subst h
    exact List.get_mem _ _ _

/-- A move passing all rules passes each rule in the list. -/
theorem passesAll_eval {rs : List rule} {m : move} {q : ℚ} (h : passesAll rs m q = true)
    {r : rule} (hr : r ∈ rs) : evalRule r m q = true := by
  unfold passesAll at h
  rw [List.all_eq_true] at h
  exact h r hr

/-- The inner loop flips the side flag exactly once per generated move. -/
theorem genRoundAux_flag {ws : List move} {sz : Int} {fuel : Nat} {acc ms : List move}
    {f f2 : Bool} {fl fl2 : Nat → ℚ} {it it2 : Nat → Nat}
    (h : genRoundAux ws sz fuel acc f fl it = some (ms, f2, fl2, it2)) :
    f2 = (f != decide (fuel % 2 = 1)) := by
  induction fuel generalizing acc f fl it with
  | zero =>
    simp [genRoundAux] at h
    simp [h.2.1]
  | succ n ih =>
    simp only [genRoundAux] at h
    split at h
    · exact absurd h (by simp)
    · have hf := ih h
      rw [hf]
      rcases Nat.mod_two_eq_zero_or_one n with hn | hn
      · have h1 : (n + 1) % 2 = 1 := by omega
        have e1 : decide (n % 2 = 1) = false := by simp [hn]
        have e2 : decide ((n + 1) % 2 = 1) = true := by simp [h1]
        rw [e1, e2]
        cases f <;> rfl
      · have h1 : (n + 1) % 2 = 0 := by omega
        have e1 : decide (n % 2 = 1) = true := by simp [hn]
        have e2 : decide ((n + 1) % 2 = 1) = false := by simp [h1]
        rw [e1, e2]
        cases f <;> rfl
/-! ### Claim theorems: catalog filter -/

/-- C1: for every catalog and configuration with leg-only false and
`1 < seqSize < 4`, the working set produced by `applyGlobalOptions`
contains no leg moves. -/
theorem applyGlobalOptions_short_seq_no_leg (cat : List move) (o : globalOptions)
    (l : List move) (m : move) (h0 : o.onlyLeg = false) (h1 : 1 < o.seqSize)
    (h2 : o.seqSize < 4) (hl : applyGlobalOptions cat o = some l) (hm : m ∈ l) :
    m.leg = false := by
  have hmem : m ∈ filterPass cat o := by
    unfold applyGlobalOptions at hl
    by_cases hc : o.maxDistinct ≠ 0 ∧ ((filterPass cat o).length : Int) > o.maxDistinct
    · rw [if_pos hc] at hl
      by_cases hneg : o.maxDistinct < 0
      · rw [if_pos hneg] at hl
        exact absurd hl (by simp)
      · rw [if_neg hneg, Option.some_inj] at hl
        subst hl
        exact List.take_subset _ _ hm
    · rw [if_neg hc, Option.some_inj] at hl
      subst hl
      exact hm
  have hk : keepMove o m = true := (List.mem_filter.mp hmem).2
  simp [keepMove, h0, h1, h2] at hk
  exact hk.2

/-- Witness for C1: the default catalog with default options (seqSize 2)
yields a working set, and its first element `jab` is not a leg move. -/
theorem applyGlobalOptions_short_seq_no_leg_witness :
    applyGlobalOptions defaultMoves ⟨0, 2, false, false, 0⟩ =
      some [⟨"jab", true, false, false, 0⟩, ⟨"direto", false, true, false, 0⟩,
            ⟨"cruza", true, true, false, 3/10⟩, ⟨"upper", true, true, false, 3/10⟩,
            ⟨"cotovelo", true, true, false, 1/2⟩] ∧
    (⟨"jab", true, false, false, 0⟩ : move).leg = false :=
  ⟨rfl, applyGlobalOptions_short_seq_no_leg defaultMoves ⟨0, 2, false, false, 0⟩
    [⟨"jab", true, false, false, 0⟩, ⟨"direto", false, true, false, 0⟩,
     ⟨"cruza", true, true, false, 3/10⟩, ⟨"upper", true, true, false, 3/10⟩,
     ⟨"cotovelo", true, true, false, 1/2⟩]
    ⟨"jab", true, false, false, 0⟩ rfl (by decide) (by decide) rfl (List.Mem.head _)⟩

/-- C5 counterexample: with both leg-only and arm-only set, the filtering
pass does NOT keep exactly the leg moves: on the one-move catalog `[chuta]`
it returns `[]` while the leg moves are `[chuta]`. The two drops are
independent `if`s in the source, not an `else if`. -/
theorem applyGlobalOptions_both_flags_not_leg_filter :
    ¬ (filterPass [⟨"chuta", true, true, true, 0⟩] ⟨0, 3, true, true, 0⟩ =
       List.filter (fun m => m.leg) [⟨"chuta", true, true, true, 0⟩]) := by
  decide

/-- C5 amended: when both leg-only and arm-only are set, every move is
dropped (leg moves by the arm-only check, arm moves by the leg-only check)
and the filtering pass returns the empty list. -/
theorem filterPass_both_flags_empty (cat : List move) (o : globalOptions)
    (hL : o.onlyLeg = true) (hA : o.onlyArm = true) : filterPass cat o = [] := by
  unfold filterPass
  rw [List.filter_eq_nil_iff]
  intro m _
  simp [keepMove, hL, hA]

/-- Witness for the amended C5 at a concrete catalog and configuration. -/
theorem filterPass_both_flags_empty_witness :
    filterPass [⟨"chuta", true, true, true, 0⟩] ⟨0, 3, true, true, 0⟩ = [] :=
  filterPass_both_flags_empty _ _ rfl rfl

/-- C7: `maxDistinct = 0` never truncates (the result is the whole filtering
pass), and `maxDistinct = N > 0` with more than `N` survivors yields exactly
the first `N` surviving moves, in original catalog order (a sublist of the
catalog). -/
theorem applyGlobalOptions_maxDistinct_truncation (cat : List move) (o : globalOptions) :
    (o.maxDistinct = 0 → applyGlobalOptions cat o = some (filterPass cat o)) ∧
    (0 < o.maxDistinct → o.maxDistinct < ((filterPass cat o).length : Int) →
      applyGlobalOptions cat o = some ((filterPass cat o).take o.maxDistinct.toNat) ∧
      ((filterPass cat o).take o.maxDistinct.toNat).length = o.maxDistinct.toNat ∧
      List.Sublist ((filterPass cat o).take o.maxDistinct.toNat) cat) := by
  constructor
  · intro h0
    simp [applyGlobalOptions, h0]
  · intro hpos hlen
    unfold applyGlobalOptions
    rw [if_pos ⟨by omega, by omega⟩, if_neg (by omega)]
    refine ⟨rfl, ?_, ?_⟩
    · have hle : o.maxDistinct.toNat ≤ (filterPass cat o).length := by omega
      simp [List.length_take, hle]
    · exact (List.take_sublist _ _).trans (by unfold filterPass; exact List.filter_sublist _)

/-- Witness for C7: a two-move catalog with `maxDistinct = 1` is truncated to
its first surviving move. -/
theorem applyGlobalOptions_maxDistinct_truncation_witness :
    applyGlobalOptions [⟨"a", true, true, false, 0⟩, ⟨"b", true, true, false, 0⟩]
        ⟨1, 2, false, false, 0⟩ =
      some ((filterPass [⟨"a", true, true, false, 0⟩, ⟨"b", true, true, false, 0⟩]
        ⟨1, 2, false, false, 0⟩).take (1 : Int).toNat) ∧
    ((filterPass [⟨"a", true, true, false, 0⟩, ⟨"b", true, true, false, 0⟩]
        ⟨1, 2, false, false, 0⟩).take (1 : Int).toNat).length = (1 : Int).toNat ∧
    List.Sublist ((filterPass [⟨"a", true, true, false, 0⟩, ⟨"b", true, true, false, 0⟩]
        ⟨1, 2, false, false, 0⟩).take (1 : Int).toNat)
      [⟨"a", true, true, false, 0⟩, ⟨"b", true, true, false, 0⟩] :=
  (applyGlobalOptions_maxDistinct_truncation _ _).2 (by decide) (by decide)

/-- C8 counterexample: `applyGlobalOptions` does have an error path: with
`maxDistinct = -1` the truncation guard fires (`len(result) > -1` always
holds) and the Go slice `result[:-1]` panics, even on the empty catalog. -/
theorem applyGlobalOptions_negative_maxDistinct_fails :
    applyGlobalOptions [] ⟨-1, 2, false, false, 0⟩ = none := by
  decide

/-- C8 amended: for every catalog and every configuration with a
non-negative `maxDistinct`, `applyGlobalOptions` returns a list (possibly
empty) without failing. -/
theorem applyGlobalOptions_nonneg_maxDistinct_total (cat : List move)
    (o : globalOptions) (h : 0 ≤ o.maxDistinct) :
    ∃ l, applyGlobalOptions cat o = some l := by
  unfold applyGlobalOptions
  by_cases hc : o.maxDistinct ≠ 0 ∧ ((filterPass cat o).length : Int) > o.maxDistinct
  · rw [if_pos hc, if_neg (by omega)]
    exact ⟨_, rfl⟩
  · rw [if_neg hc]
    exact ⟨_, rfl⟩

/-- Witness for the amended C8 on a concrete catalog and configuration. -/
theorem applyGlobalOptions_nonneg_maxDistinct_total_witness :
    (0 : Int) ≤ 0 ∧ ∃ l, applyGlobalOptions defaultMoves ⟨0, 3, false, true, 0⟩ = some l :=
  ⟨by decide, applyGlobalOptions_nonneg_maxDistinct_total defaultMoves
    ⟨0, 3, false, true, 0⟩ (by decide)⟩

/-! ### Claim theorems: move selection -/

/-- C2: whenever the working set has both an arm and a leg move and
`nextMove` is called at the last position of a sequence of length at least 4
and returns normally, the returned move is a leg move. -/
theorem nextMove_last_of_long_seq_is_leg (ws : List move) (o : rulesOptions)
    (p : Nat → ℚ) (r : Nat) (m : move) (hleg : hasLeg ws = true)
    (harm : hasArm ws = true) (hsz : 4 ≤ o.seqSize)
    (hlast : (o.previousMoves.length : Int) = o.seqSize - 1)
    (h : nextMove ws o p r = some m) : m.leg = true := by
  rcases mem_applyRules (nextMove_mem_allowed h) with ⟨-, q, hq⟩
  have hr : rule.mustBeLegRule ∈ rulesFor ws o := by
    have hc : o.seqSize ≥ 4 ∧ (o.previousMoves.length : Int) = o.seqSize - 1 :=
      ⟨hsz, hlast⟩
    simp [rulesFor, hleg, harm, hc]
  simpa [evalRule] using passesAll_eval hq hr

/-- Witness for C2: a mixed two-move set at the last position of a
4-sequence returns the leg move. -/
theorem nextMove_last_of_long_seq_is_leg_witness :
    nextMove [⟨"a", true, true, false, 0⟩, ⟨"l", true, true, true, 0⟩]
      ⟨true, [⟨"a", true, true, false, 0⟩, ⟨"a", true, true, false, 0⟩,
              ⟨"a", true, true, false, 0⟩], 4⟩ (fun _ => 0) 0 =
      some ⟨"l", true, true, true, 0⟩ ∧
    (⟨"l", true, true, true, 0⟩ : move).leg = true :=
  ⟨by decide, nextMove_last_of_long_seq_is_leg
    [⟨"a", true, true, false, 0⟩, ⟨"l", true, true, true, 0⟩]
    ⟨true, [⟨"a", true, true, false, 0⟩, ⟨"a", true, true, false, 0⟩,
            ⟨"a", true, true, false, 0⟩], 4⟩ (fun _ => 0) 0
    ⟨"l", true, true, true, 0⟩ (by decide) (by decide)
    (by decide) (by decide) (by decide)⟩

/-- C3: a move returned normally by `nextMove` belongs to the input working
set, has `front = true` when the call context has `isFront = true`, and has
`back = true` when `isFront = false`. -/
theorem nextMove_mem_and_side_eligible (ws : List move) (o : rulesOptions)
    (p : Nat → ℚ) (r : Nat) (m : move) (h : nextMove ws o p r = some m) :
    m ∈ ws ∧ (o.isFront = true → m.front = true) ∧ (o.isFront = false → m.back = true) := by
  rcases mem_applyRules (nextMove_mem_allowed h) with ⟨hws, q, hq⟩
  refine ⟨hws, ?_, ?_⟩
  · intro hf
    have hr : rule.frontRule ∈ rulesFor ws o := by simp [rulesFor, hf]
    simpa [evalRule] using passesAll_eval hq hr
  · intro hf
    have hr : rule.backRule ∈ rulesFor ws o := by simp [rulesFor, hf]
    simpa [evalRule] using passesAll_eval hq hr

/-- Witness for C3: a one-move working set on the lead side returns that
move, which is lead-eligible. -/
theorem nextMove_mem_and_side_eligible_witness :
    nextMove [⟨"a", true, true, false, 0⟩] ⟨true, [], 2⟩ (fun _ => 0) 0 =
      some ⟨"a", true, true, false, 0⟩ ∧
    ((⟨"a", true, true, false, 0⟩ : move) ∈ [(⟨"a", true, true, false, 0⟩ : move)] ∧
     (true = true → (⟨"a", true, true, false, 0⟩ : move).front = true) ∧
     (true = false → (⟨"a", true, true, false, 0⟩ : move).back = true)) :=
  ⟨by decide, nextMove_mem_and_side_eligible [⟨"a", true, true, false, 0⟩]
    ⟨true, [], 2⟩ (fun _ => 0) 0 ⟨"a", true, true, false, 0⟩ (by decide)⟩

/-- C4: `nextMove` fails (the `rand.Intn` panic, modeled as `none`) exactly
when the subset of the working set passing all active rules is empty;
with a non-empty passing subset it returns normally. -/
theorem nextMove_none_iff_no_allowed (ws : List move) (o : rulesOptions)
    (p : Nat → ℚ) (r : Nat) :
    nextMove ws o p r = none ↔ applyRules ws (rulesFor ws o) p = [] := by
  unfold nextMove
  split <;> simp_all

/-- C6: for a working set that is pure leg or pure arm, the rule list built
by `nextMove` contains no limb-position rule (`mustBeLegRule` or
`mustNotBeLegRule`): the mixed-set precondition fails, so in particular with
leg-only mode and `seqSize = 3` leg moves are never suppressed. -/
theorem rulesFor_pure_set_no_limb_rule (ws : List move) (o : rulesOptions)
    (h : (∀ m ∈ ws, m.leg = true) ∨ (∀ m ∈ ws, m.leg = false)) :
    rule.mustBeLegRule ∉ rulesFor ws o ∧ rule.mustNotBeLegRule ∉ rulesFor ws o := by
  have hfalse : (hasLeg ws && hasArm ws) = false := by
    rcases h with h | h
    · have hA : hasArm ws = false := by
        simp only [hasArm, List.any_eq_false]
        intro x hx
        simp [h x hx]
      simp [hA]
    · have hL : hasLeg ws = false := by
        simp only [hasLeg, List.any_eq_false]
        intro x hx
        simp [h x hx]
      simp [hL]
  unfold rulesFor
  rw [hfalse]
  cases hf : o.isFront <;> simp [hf]

/-- Witness for C6: the pure-leg one-move set with a seqSize-3 context gets
no limb-position rule. -/
theorem rulesFor_pure_set_no_limb_rule_witness :
    (∀ m ∈ [(⟨"l", true, true, true, 0⟩ : move)], m.leg = true) ∧
    (rule.mustBeLegRule ∉ rulesFor [⟨"l", true, true, true, 0⟩] ⟨true, [], 3⟩ ∧
     rule.mustNotBeLegRule ∉ rulesFor [⟨"l", true, true, true, 0⟩] ⟨true, [], 3⟩) :=
  ⟨by decide, rulesFor_pure_set_no_limb_rule _ _ (Or.inl (by decide))⟩

/-! ### Claim theorems: sequence generator -/

/-- C9 counterexample: rounds do NOT all start from the lead side. With a
one-move catalog and `seqSize = 1`, the second generated round starts with
`isFront = false` and prints the rear marker `T:`: the side flag is carried
across round boundaries, not reset. -/
theorem genRounds_second_round_rear_marker :
    genRounds [⟨"x", true, true, false, 0⟩] 1 2 true (fun _ => 0) (fun _ => 0) =
      some [(true, "F: x"), (false, "T: x")] ∧
    ¬ (∀ e ∈ [((true : Bool), "F: x"), ((false : Bool), "T: x")], e.1 = true) := by
  constructor
  · decide
  · decide

/-- C9 amended: round `r` starts with the side flag obtained from the
initial flag by `r * seqSize` alternations (the flag flips once per selected
move and is never reset between rounds), and the printed marker follows that
flag. With an even `seqSize` every round does start from the lead side; with
an odd `seqSize` the starting side alternates between rounds. -/
theorem genRounds_round_start_flags (ws : List move) (sz : Int) (k : Nat)
    (f0 : Bool) (fl : Nat → ℚ) (it : Nat → Nat) (lines : List (Bool × String))
    (h : genRounds ws sz k f0 fl it = some lines) :
    lines.length = k ∧
    ∀ r (hr : r < lines.length), (lines.get ⟨r, hr⟩).1 = flagAt f0 sz.toNat r := by
  induction k generalizing f0 fl it lines with
  | zero =>
    simp only [genRounds, Option.some_inj] at h
    subst h
    simp
  | succ n ih =>
    simp only [genRounds] at h
    split at h
    · exact absurd h (by simp)
    · rename_i ms f2 fl2 it2 heq
      split at h
      · exact absurd h (by simp)
      · rename_i rest heq2
        rw [Option.some_inj] at h
        subst h
        rcases ih f2 fl2 it2 rest heq2 with ⟨hlen, hflags⟩
        have hf2 : f2 = (f0 != decide (sz.toNat % 2 = 1)) := genRoundAux_flag heq
        refine ⟨by simp [hlen], ?_⟩
        intro r hr
        cases r with
        | zero => simp [flagAt]
        | succ r2 =>
          have hr2 : r2 < rest.length := by
            simpa using hr
          have hrec := hflags r2 hr2
          simp only [List.get_cons_succ]
          rw [show flagAt f0 sz.toNat (r2 + 1) =
            flagAt (f0 != decide (sz.toNat % 2 = 1)) sz.toNat r2 from rfl, ← hf2]
          exact hrec

/-- Witness for the amended C9 on the concrete two-round run of the
counterexample configuration. -/
theorem genRounds_round_start_flags_witness :
    ([((true : Bool), "F: x"), ((false : Bool), "T: x")].length = 2) ∧
    ∀ r (hr : r < [((true : Bool), "F: x"), ((false : Bool), "T: x")].length),
      ([((true : Bool), "F: x"), ((false : Bool), "T: x")].get ⟨r, hr⟩).1 =
        flagAt true (1 : Int).toNat r :=
  genRounds_round_start_flags [⟨"x", true, true, false, 0⟩] 1 2 true
    (fun _ => 0) (fun _ => 0) [(true, "F: x"), (false, "T: x")] (by decide)

/-- C10: generation is deterministic in the random source: two runs over the
same working set and configuration that consume equal random draw streams
produce exactly the same rounds (the seeded PRNG of the source is modeled by
the draw streams, and a fixed seed fixes the streams). -/
theorem genRounds_deterministic (ws : List move) (sz : Int) (k : Nat) (f0 : Bool)
    (fl1 fl2 : Nat → ℚ) (it1 it2 : Nat → Nat) (hfl : fl1 = fl2) (hit : it1 = it2) :
    genRounds ws sz k f0 fl1 it1 = genRounds ws sz k f0 fl2 it2 := by
  subst hfl
  subst hit
  rfl

/-- Witness for C10 at a concrete configuration and stream. -/
theorem genRounds_deterministic_witness :
    genRounds defaultMoves 1 3 true (fun _ => 0) (fun _ => 0) =
      genRounds defaultMoves 1 3 true (fun _ => 0) (fun _ => 0) :=
  genRounds_deterministic defaultMoves 1 3 true (fun _ => 0) (fun _ => 0)
    (fun _ => 0) (fun _ => 0) rfl rfl
